import Mathlib

/-!
Verification development for the better-manager repository.

The SQLite-backed stores (accounts, proxy configuration, monitor logs) are
shallowly embedded as Lean functions over explicit table states.  A table is a
list of rows held in rowid (insertion) order; `ORDER BY key ASC` is modelled by
a stable insertion sort on the key, matching SQLite's deterministic full-scan
behaviour for these queries.  The OAuth refresh call and the spec's scheduler
are modelled at the end of the file.
-/

namespace BetterManager

/-! ### Stable sort on an integer key (model of `ORDER BY key ASC`) -/

/-- Comparison of two rows by an integer key (the `ORDER BY` relation). -/
def keyLe {α : Type} (key : α → Int) (a b : α) : Prop := key a ≤ key b

instance {α : Type} (key : α → Int) : DecidableRel (keyLe key) :=
  fun a b => inferInstanceAs (Decidable (key a ≤ key b))

instance {α : Type} (key : α → Int) : IsTotal α (keyLe key) :=
  ⟨fun a b => Int.le_total (key a) (key b)⟩

instance {α : Type} (key : α → Int) : IsTrans α (keyLe key) :=
  ⟨fun _ _ _ h1 h2 => le_trans h1 h2⟩

/-- Sort a table by an integer key, stably. -/
def sortByKey {α : Type} (key : α → Int) (l : List α) : List α :=
  List.insertionSort (keyLe key) l

theorem orderedInsert_eq_cons {α : Type} (key : α → Int) (a : α) (t : List α)
    (h : ∀ x ∈ t, key a ≤ key x) :
    List.orderedInsert (keyLe key) a t = a :: t := by
  cases t with
  | nil => rfl
  | cons c t =>
    have hac : keyLe key a c := h c (List.mem_cons_self c t)
    simp only [List.orderedInsert]
    rw [if_pos hac]

theorem filter_orderedInsert {α : Type} (key : α → Int) (p : α → Bool) (a : α)
    (s : List α) (hs : s.Sorted (keyLe key)) :
    (List.orderedInsert (keyLe key) a s).filter p =
      if p a then List.orderedInsert (keyLe key) a (s.filter p) else s.filter p := by
  induction s with
  | nil =>
    by_cases hpa : p a <;> simp [List.orderedInsert, hpa]
  | cons b s ih =>
    have hs' : s.Sorted (keyLe key) := (List.sorted_cons.mp hs).2
    have hble : ∀ x ∈ s, key b ≤ key x := (List.sorted_cons.mp hs).1
    by_cases hab : keyLe key a b
    · -- a is inserted before b
      have hale : ∀ x ∈ s.filter p, key a ≤ key x := by
        intro x hx
        exact le_trans hab (hble x (List.mem_of_mem_filter hx))
      by_cases hpa : p a <;> by_cases hpb : p b <;>
        simp [List.orderedInsert, hab, hpa, hpb, List.filter_cons,
          orderedInsert_eq_cons key a _ hale]
    · -- a is inserted somewhere after b
      by_cases hpa : p a <;> by_cases hpb : p b <;>
        simp [List.orderedInsert, hab, hpa, hpb, List.filter_cons, ih hs']

theorem filter_sortByKey {α : Type} (key : α → Int) (p : α → Bool) (l : List α) :
    (sortByKey key l).filter p = sortByKey key (l.filter p) := by
  induction l with
  | nil => rfl
  | cons a l ih =>
    have hsorted : (List.insertionSort (keyLe key) l).Sorted (keyLe key) :=
      List.sorted_insertionSort (keyLe key) l
    have ih' : (List.insertionSort (keyLe key) l).filter p =
        List.insertionSort (keyLe key) (l.filter p) := ih
    by_cases hpa : p a <;>
      simp [sortByKey, List.insertionSort, List.filter_cons, hpa,
        filter_orderedInsert key p a _ hsorted, ih']

theorem sorted_sortByKey {α : Type} (key : α → Int) (l : List α) :
    (sortByKey key l).Sorted (keyLe key) :=
  List.sorted_insertionSort (keyLe key) l

theorem mem_sortByKey {α : Type} (key : α → Int) (a : α) (l : List α) :
    a ∈ sortByKey key l ↔ a ∈ l :=
  (List.perm_insertionSort (keyLe key) l).mem_iff

theorem orderedInsert_append_singleton {α : Type} (key : α → Int) (x a : α)
    (s : List α) (h : key x ≤ key a) :
    List.orderedInsert (keyLe key) x (s ++ [a]) =
      List.orderedInsert (keyLe key) x s ++ [a] := by
  induction s with
  | nil => simp [List.orderedInsert, keyLe, h]
  | cons b s ih =>
    by_cases hxb : keyLe key x b <;> simp [List.orderedInsert, hxb, ih]

theorem sortByKey_append_singleton {α : Type} (key : α → Int) (l : List α) (a : α)
    (h : ∀ x ∈ l, key x ≤ key a) :
    sortByKey key (l ++ [a]) = sortByKey key l ++ [a] := by
  induction l with
  | nil => simp [sortByKey, List.insertionSort]
  | cons x l ih =>
    have hx : key x ≤ key a := h x (List.mem_cons_self x l)
    have hrest : ∀ y ∈ l, key y ≤ key a := fun y hy => h y (List.mem_cons_of_mem x hy)
    have ih' : List.insertionSort (keyLe key) (l ++ [a]) =
        List.insertionSort (keyLe key) l ++ [a] := ih hrest
    show List.orderedInsert (keyLe key) x (List.insertionSort (keyLe key) (l ++ [a])) =
        List.orderedInsert (keyLe key) x (List.insertionSort (keyLe key) l) ++ [a]
    rw [ih', orderedInsert_append_singleton key x a _ hx]

/-! ### Account rows (src/db/models.rs) -/

/-- One row of the `accounts` table (struct `Account` in `src/db/models.rs`). -/
structure Account where
  id : Int
  email : String
  display_name : Option String
  photo_url : Option String
  access_token : String
  refresh_token : String
  expires_at : Int
  is_active : Bool
  sort_order : Int
  created_at : Int
  updated_at : Int
deriving Repr, DecidableEq

/-- The `accounts` table: rows in rowid order plus the AUTOINCREMENT counter. -/
structure AccountsTable where
  rows : List Account
  nextId : Int
deriving Repr, DecidableEq

/-- Model of `get_all_accounts`: `SELECT ... FROM accounts ORDER BY sort_order ASC`. -/
def get_all_accounts (t : AccountsTable) : List Account :=
  sortByKey (fun a => a.sort_order) t.rows

/-- Model of `get_active_accounts`:
`SELECT ... FROM accounts WHERE is_active = 1 ORDER BY sort_order ASC`. -/
def get_active_accounts (t : AccountsTable) : List Account :=
  sortByKey (fun a => a.sort_order) (t.rows.filter (fun a => a.is_active))

/-- Model of `SELECT COALESCE(MAX(sort_order), -1) FROM accounts`. -/
def maxSortOrder : List Account → Int
  | [] => -1
  | a :: t => t.foldl (fun m r => max m r.sort_order) a.sort_order

/-- Errors a single SQL statement can raise in this model. -/
inductive DbError
  | uniqueViolation
deriving Repr, DecidableEq

/-- Model of `save_account` (src/db/accounts.rs).  `id = 0` inserts a fresh row
whose `sort_order` is `MAX(sort_order) + 1` (with `COALESCE` default `-1`);
otherwise the row with the given id is updated in place.  A duplicate email
violates the `UNIQUE` constraint on `accounts.email` and the statement fails
without touching the table. -/
def save_account (t : AccountsTable) (account : Account) (now : Int) :
    Except DbError (AccountsTable × Int) :=
  if account.id = 0 then
    if t.rows.any (fun r => r.email = account.email) then
      .error .uniqueViolation
    else
      let newAcc : Account :=
        { account with
          id := t.nextId
          sort_order := maxSortOrder t.rows + 1
          created_at := now
          updated_at := now }
      .ok ({ rows := t.rows ++ [newAcc], nextId := t.nextId + 1 }, t.nextId)
  else
    if t.rows.any (fun r => r.id = account.id) ∧
        t.rows.any (fun r => r.email = account.email ∧ r.id ≠ account.id) then
      .error .uniqueViolation
    else
      .ok ({ rows := t.rows.map (fun r =>
               if r.id = account.id then
                 { account with id := r.id, created_at := r.created_at, updated_at := now }
               else r)
             nextId := t.nextId }, account.id)

/-- The table state after `save_account`: a failed SQL statement leaves the
database unchanged. -/
def save_account_state (t : AccountsTable) (account : Account) (now : Int) :
    AccountsTable :=
  match save_account t account now with
  | .ok (t', _) => t'
  | .error _ => t

theorem le_foldl_max (l : List Account) (init : Int) :
    init ≤ l.foldl (fun m r => max m r.sort_order) init := by
  induction l generalizing init with
  | nil => exact le_refl init
  | cons a l ih =>
    exact le_trans (le_max_left init a.sort_order) (ih (max init a.sort_order))

theorem mem_le_foldl_max (l : List Account) (init : Int) (r : Account) (hr : r ∈ l) :
    r.sort_order ≤ l.foldl (fun m r => max m r.sort_order) init := by
  induction l generalizing init with
  | nil => cases hr
  | cons a l ih =>
    rcases List.mem_cons.mp hr with h | h
    · subst h
      exact le_trans (le_max_right init r.sort_order) (le_foldl_max l _)
    · exact ih _ h

theorem sortOrder_le_maxSortOrder (l : List Account) (r : Account) (hr : r ∈ l) :
    r.sort_order ≤ maxSortOrder l := by
  cases l with
  | nil => cases hr
  | cons a t =>
    rcases List.mem_cons.mp hr with h | h
    · subst h
      exact le_foldl_max t r.sort_order
    · exact mem_le_foldl_max t a.sort_order r h

/-- C1.  `get_active_accounts` returns exactly the active accounts: it equals
`get_all_accounts` filtered to `is_active`, contains no inactive account, and
is ordered by `sort_order` ascending. -/
theorem get_active_accounts_spec (t : AccountsTable) :
    get_active_accounts t = (get_all_accounts t).filter (fun a => a.is_active) ∧
    (∀ a ∈ get_active_accounts t, a.is_active = true) ∧
    (get_active_accounts t).Sorted (keyLe (fun a => a.sort_order)) := by
  refine ⟨?_, ?_, ?_⟩
  · rw [get_active_accounts, get_all_accounts, filter_sortByKey]
  · intro a ha
    have : a ∈ t.rows.filter (fun a => a.is_active) :=
      (mem_sortByKey _ a _).mp ha
    simpa using List.of_mem_filter this
  · exact sorted_sortByKey _ _

/-- An inactive sample account used by concrete witnesses. -/
def sampleInactive : Account :=
  { id := 1, email := "a@x", display_name := none, photo_url := none,
    access_token := "t1", refresh_token := "r1", expires_at := 10,
    is_active := false, sort_order := 0, created_at := 0, updated_at := 0 }

/-- An active sample account used by concrete witnesses. -/
def sampleActive : Account :=
  { id := 2, email := "b@x", display_name := none, photo_url := none,
    access_token := "t2", refresh_token := "r2", expires_at := 10,
    is_active := true, sort_order := 4, created_at := 0, updated_at := 0 }

/-- A fresh account (id 0) used as `save_account` input in witnesses. -/
def sampleNew : Account :=
  { id := 0, email := "c@x", display_name := none, photo_url := none,
    access_token := "t3", refresh_token := "r3", expires_at := 20,
    is_active := true, sort_order := 99, created_at := 0, updated_at := 0 }

/-- A two-row sample table used by concrete witnesses. -/
def sampleTable : AccountsTable :=
  { rows := [sampleInactive, sampleActive], nextId := 3 }

/-- Witness for C1 at a concrete two-row table. -/
theorem get_active_accounts_spec_witness :
    get_active_accounts sampleTable =
      (get_all_accounts sampleTable).filter (fun a => a.is_active) :=
  (get_active_accounts_spec sampleTable).1

/-- C6.  Inserting a new account (`id = 0`) whose email is already present
fails with a `UNIQUE` violation, and the failed statement leaves the table
unchanged. -/
theorem save_account_duplicate_email (t : AccountsTable) (account : Account)
    (now : Int) (h0 : account.id = 0)
    (hdup : ∃ r ∈ t.rows, r.email = account.email) :
    save_account t account now = .error .uniqueViolation ∧
    save_account_state t account now = t := by
  have hany : t.rows.any (fun r => r.email = account.email) = true := by
    rcases hdup with ⟨r, hr, he⟩
    exact List.any_eq_true.mpr ⟨r, hr, by simp [he]⟩
  constructor
  · simp [save_account, h0, hany]
  · simp [save_account_state, save_account, h0, hany]

/-- A fresh account (id 0) whose email collides with `sampleActive`. -/
def sampleDupEmail : Account :=
  { id := 0, email := "b@x", display_name := none, photo_url := none,
    access_token := "t4", refresh_token := "r4", expires_at := 20,
    is_active := true, sort_order := 7, created_at := 0, updated_at := 0 }

/-- Witness for C6: inserting a second account with the same email fails. -/
theorem save_account_duplicate_email_witness :
    save_account sampleTable sampleDupEmail 5 = .error .uniqueViolation ∧
    save_account_state sampleTable sampleDupEmail 5 = sampleTable :=
  save_account_duplicate_email sampleTable sampleDupEmail 5 rfl
    ⟨sampleActive, by simp [sampleTable], rfl⟩

/-- C10.  Inserting a new account (`id = 0`, fresh email) appends a row whose
`sort_order` is one plus the maximum existing `sort_order` (0 for an empty
table), ignoring the `sort_order` supplied in the argument, and that row is
the last element of `get_all_accounts` afterwards. -/
theorem save_account_insert_spec (t : AccountsTable) (account : Account)
    (now : Int) (h0 : account.id = 0)
    (hemail : ∀ r ∈ t.rows, r.email ≠ account.email) :
    ∃ newAcc : Account,
      save_account t account now =
        .ok ({ rows := t.rows ++ [newAcc], nextId := t.nextId + 1 }, t.nextId) ∧
      newAcc.sort_order = maxSortOrder t.rows + 1 ∧
      (t.rows = [] → newAcc.sort_order = 0) ∧
      newAcc.email = account.email ∧
      (get_all_accounts { rows := t.rows ++ [newAcc], nextId := t.nextId + 1 }).getLast? =
        some newAcc := by
  have hany : t.rows.any (fun r => r.email = account.email) = false := by
    simp only [List.any_eq_false, decide_eq_true_eq]
    exact hemail
  refine ⟨{ account with
      id := t.nextId
      sort_order := maxSortOrder t.rows + 1
      created_at := now
      updated_at := now }, ?_, rfl, ?_, rfl, ?_⟩
  · simp [save_account, h0, hany]
  · intro h
    rw [h]
    rfl
  · rw [get_all_accounts]
    rw [sortByKey_append_singleton _ _ _ (fun x hx => by
      show x.sort_order ≤ maxSortOrder t.rows + 1
      have := sortOrder_le_maxSortOrder t.rows x hx
      omega)]
    exact List.getLast?_concat _

/-- Witness for C10: inserting a fresh account into a two-row table whose
maximum sort_order is 4. -/
theorem save_account_insert_spec_witness :
    ∃ newAcc : Account,
      save_account sampleTable sampleNew 5 =
        .ok ({ rows := sampleTable.rows ++ [newAcc],
               nextId := sampleTable.nextId + 1 }, sampleTable.nextId) ∧
      newAcc.sort_order = maxSortOrder sampleTable.rows + 1 ∧
      (sampleTable.rows = [] → newAcc.sort_order = 0) ∧
      newAcc.email = sampleNew.email ∧
      (get_all_accounts { rows := sampleTable.rows ++ [newAcc],
                          nextId := sampleTable.nextId + 1 }).getLast? = some newAcc :=
  save_account_insert_spec sampleTable sampleNew 5 rfl (by decide)

/-! ### Account API responses (src/api/accounts.rs) -/

/-- The dashboard account response (struct `AccountResponse`): the OAuth token
fields are not part of it. -/
structure AccountResponse where
  id : Int
  email : String
  display_name : Option String
  photo_url : Option String
  is_active : Bool
  sort_order : Int
  expires_at : Int
deriving Repr, DecidableEq

/-- Model of `impl From<Account> for AccountResponse`. -/
def AccountResponse.ofAccount (a : Account) : AccountResponse :=
  { id := a.id
    email := a.email
    display_name := a.display_name
    photo_url := a.photo_url
    is_active := a.is_active
    sort_order := a.sort_order
    expires_at := a.expires_at }

/-- Model of the `GET /accounts` handler body: all accounts mapped through
`AccountResponse`. -/
def list_accounts (t : AccountsTable) : List AccountResponse :=
  (get_all_accounts t).map AccountResponse.ofAccount

/-- C9.  `AccountResponse` is independent of the OAuth token fields: two
accounts that agree on every field except possibly `access_token` and
`refresh_token` produce identical responses. -/
theorem accountResponse_token_independent (a b : Account)
    (hid : a.id = b.id) (hemail : a.email = b.email)
    (hname : a.display_name = b.display_name) (hphoto : a.photo_url = b.photo_url)
    (hactive : a.is_active = b.is_active) (hsort : a.sort_order = b.sort_order)
    (hexp : a.expires_at = b.expires_at) :
    AccountResponse.ofAccount a = AccountResponse.ofAccount b := by
  simp [AccountResponse.ofAccount, hid, hemail, hname, hphoto, hactive, hsort, hexp]

/-- Witness for C9: two accounts with different token pairs map to the same
response. -/
theorem accountResponse_token_independent_witness :
    AccountResponse.ofAccount
      { sampleActive with access_token := "secretA", refresh_token := "secretB" } =
    AccountResponse.ofAccount
      { sampleActive with access_token := "otherC", refresh_token := "otherD" } :=
  accountResponse_token_independent _ _ rfl rfl rfl rfl rfl rfl rfl

/-! ### JSON encoding of string lists

`save_proxy_config` stores `allowed_models` as `serde_json::to_string(&Vec<String>)`
and `get_proxy_config` reads it back with `serde_json::from_str`.  The codec is
modelled character-exactly on serde_json's compact output: `"` and `\` and the
named control characters are escaped, other control characters use `\u00XX`
with lowercase hex, everything else is emitted verbatim. -/

/-- Lowercase hexadecimal digit, as emitted by serde_json. -/
def hexDigitChar (n : Nat) : Char :=
  if n < 10 then Char.ofNat (48 + n) else Char.ofNat (87 + n)

/-- Value of a hexadecimal digit accepted by a JSON parser. -/
def hexVal (c : Char) : Option Nat :=
  if 48 ≤ c.toNat ∧ c.toNat ≤ 57 then some (c.toNat - 48)
  else if 97 ≤ c.toNat ∧ c.toNat ≤ 102 then some (c.toNat - 87)
  else if 65 ≤ c.toNat ∧ c.toNat ≤ 70 then some (c.toNat - 55)
  else none

theorem hexVal_hexDigitChar (n : Nat) (h : n < 16) :
    hexVal (hexDigitChar n) = some n := by
  interval_cases n <;> decide

/-- serde_json's escaping of one character inside a JSON string. -/
def escapeChar (c : Char) : List Char :=
  if c = Char.ofNat 34 then [Char.ofNat 92, Char.ofNat 34]
  else if c = Char.ofNat 92 then [Char.ofNat 92, Char.ofNat 92]
  else if c = Char.ofNat 8 then [Char.ofNat 92, 'b']
  else if c = Char.ofNat 9 then [Char.ofNat 92, 't']
  else if c = Char.ofNat 10 then [Char.ofNat 92, 'n']
  else if c = Char.ofNat 12 then [Char.ofNat 92, 'f']
  else if c = Char.ofNat 13 then [Char.ofNat 92, 'r']
  else if c.toNat < 32 then
    [Char.ofNat 92, 'u', '0', '0', hexDigitChar (c.toNat / 16), hexDigitChar (c.toNat % 16)]
  else [c]

/-- Escape a whole string body. -/
def escapeList : List Char → List Char
  | [] => []
  | c :: t => escapeChar c ++ escapeList t

/-- Prepend a decoded character to a parser result. -/
def consOpt (c : Char) (o : Option (List Char × List Char)) :
    Option (List Char × List Char) :=
  o.map (fun p => (c :: p.1, p.2))

/-- Combine four hexadecimal digits into a code point. -/
def hex4 (d1 d2 d3 d4 : Char) : Option Nat :=
  match hexVal d1 with
  | none => none
  | some a =>
    match hexVal d2 with
    | none => none
    | some b =>
      match hexVal d3 with
      | none => none
      | some c =>
        match hexVal d4 with
        | none => none
        | some d => some (4096 * a + 256 * b + 16 * c + d)

/-- Decode one escape sequence: `e` is the character following a backslash and
`rest2` the input after it.  Returns the decoded character and the remaining
input. -/
def decodeEscape (e : Char) (rest2 : List Char) : Option (Char × List Char) :=
  if e = Char.ofNat 34 then some (Char.ofNat 34, rest2)
  else if e = Char.ofNat 92 then some (Char.ofNat 92, rest2)
  else if e = Char.ofNat 47 then some (Char.ofNat 47, rest2)
  else if e = 'b' then some (Char.ofNat 8, rest2)
  else if e = 't' then some (Char.ofNat 9, rest2)
  else if e = 'n' then some (Char.ofNat 10, rest2)
  else if e = 'f' then some (Char.ofNat 12, rest2)
  else if e = 'r' then some (Char.ofNat 13, rest2)
  else if e = 'u' then
    match rest2 with
    | d1 :: d2 :: d3 :: d4 :: rest3 =>
      match hex4 d1 d2 d3 d4 with
      | some n => some (Char.ofNat n, rest3)
      | none => none
    | _ => none
  else none

theorem decodeEscape_length_le (e : Char) (rest2 : List Char) (d : Char)
    (rest3 : List Char) (h : decodeEscape e rest2 = some (d, rest3)) :
    rest3.length ≤ rest2.length := by
  delta decodeEscape at h
  split_ifs at h
  any_goals (cases h; exact le_refl _)
  rcases rest2 with _ | ⟨d1, _ | ⟨d2, _ | ⟨d3, _ | ⟨d4, rr⟩⟩⟩⟩
  any_goals simp at h
  rcases hh : hex4 d1 d2 d3 d4 with _ | n
  · rw [hh] at h
    simp at h
  · rw [hh] at h
    simp only [Option.some.injEq, Prod.mk.injEq] at h
    rw [← h.2]
    simp only [List.length_cons]
    omega

/-- JSON string-body parser: consumes characters up to and including the
closing quote, returning the decoded body and the remaining input. -/
def unescapeChars : List Char → Option (List Char × List Char)
  | [] => none
  | c :: rest =>
    if c = Char.ofNat 34 then some ([], rest)
    else if c = Char.ofNat 92 then
      match rest with
      | [] => none
      | e :: rest2 =>
        match heq : decodeEscape e rest2 with
        | some (d, rest3) => consOpt d (unescapeChars rest3)
        | none => none
    else consOpt c (unescapeChars rest)
termination_by l => l.length
decreasing_by
  · have hle := decodeEscape_length_le _ _ _ _ heq
    simp only [List.length_cons]
    omega
  · simp only [List.length_cons]
    omega

theorem unescapeChars_cons_escape (e : Char) (rest2 : List Char) (d : Char)
    (rest3 : List Char) (hd : decodeEscape e rest2 = some (d, rest3))
    (s r : List Char) (h : unescapeChars rest3 = some (s, r)) :
    unescapeChars (Char.ofNat 92 :: e :: rest2) = some (d :: s, r) := by
  simp only [unescapeChars]
  rw [if_neg (show ¬ (Char.ofNat 92 = Char.ofNat 34) from by decide)]
  split
  · split
    · rename_i heq
      rw [hd] at heq
      injection heq with heq2
      injection heq2 with hd2 hr2
      subst hd2
      subst hr2
      simp [consOpt, h]
    · rename_i heq
      rw [hd] at heq
      cases heq
  · rename_i hfalse
    exact absurd trivial hfalse

theorem unescapeChars_escapeChar (c : Char) (t : List Char) (s r : List Char)
    (h : unescapeChars t = some (s, r)) :
    unescapeChars (escapeChar c ++ t) = some (c :: s, r) := by
  by_cases h34 : c = Char.ofNat 34
  · subst h34
    simp [escapeChar, unescapeChars, decodeEscape, consOpt, h]
  by_cases h92 : c = Char.ofNat 92
  · subst h92
    simp [escapeChar, unescapeChars, decodeEscape, consOpt, h]
  by_cases h8 : c = Char.ofNat 8
  · subst h8
    simp [escapeChar, unescapeChars, decodeEscape, consOpt, h]
  by_cases h9 : c = Char.ofNat 9
  · subst h9
    simp [escapeChar, unescapeChars, decodeEscape, consOpt, h]
  by_cases h10 : c = Char.ofNat 10
  · subst h10
    simp [escapeChar, unescapeChars, decodeEscape, consOpt, h]
  by_cases h12 : c = Char.ofNat 12
  · subst h12
    simp [escapeChar, unescapeChars, decodeEscape, consOpt, h]
  by_cases h13 : c = Char.ofNat 13
  · subst h13
    simp [escapeChar, unescapeChars, decodeEscape, consOpt, h]
  by_cases hctl : c.toNat < 32
  · have hdiv : c.toNat / 16 < 16 := by omega
    have hmod : c.toNat % 16 < 16 := Nat.mod_lt _ (by omega)
    have hofNat : Char.ofNat c.toNat = c := Char.ofNat_toNat c
    have hhex : hex4 '0' '0' (hexDigitChar (c.toNat / 16)) (hexDigitChar (c.toNat % 16)) =
        some (16 * (c.toNat / 16) + c.toNat % 16) := by
      rw [hex4, show hexVal '0' = some 0 from by decide,
        hexVal_hexDigitChar _ hdiv, hexVal_hexDigitChar _ hmod]
      norm_num
    have hrewrite : 16 * (c.toNat / 16) + c.toNat % 16 = c.toNat := Nat.div_add_mod _ 16
    have hdec : decodeEscape 'u'
        ('0' :: '0' :: hexDigitChar (c.toNat / 16) :: hexDigitChar (c.toNat % 16) :: t) =
        some (c, t) := by
      simp [decodeEscape, hhex, hrewrite, hofNat]
    simp only [escapeChar, if_neg h34, if_neg h92, if_neg h8, if_neg h9, if_neg h10,
      if_neg h12, if_neg h13, if_pos hctl, List.cons_append, List.nil_append]
    exact unescapeChars_cons_escape _ _ _ _ hdec s r h
  · simp only [escapeChar, if_neg h34, if_neg h92, if_neg h8, if_neg h9, if_neg h10,
      if_neg h12, if_neg h13, if_neg hctl, List.cons_append, List.nil_append]
    rw [unescapeChars.eq_def]
    simp [if_neg h34, if_neg h92, consOpt, h]

theorem unescapeChars_escapeList (s rest : List Char) :
    unescapeChars (escapeList s ++ Char.ofNat 34 :: rest) = some (s, rest) := by
  induction s with
  | nil =>
    rw [escapeList, List.nil_append, unescapeChars.eq_def]
    simp
  | cons c s ih =>
    have : escapeList (c :: s) ++ Char.ofNat 34 :: rest =
        escapeChar c ++ (escapeList s ++ Char.ofNat 34 :: rest) := by
      simp [escapeList]
    rw [this]
    exact unescapeChars_escapeChar c _ s rest ih

/-- serde_json's rendering of one string, quotes included. -/
def encodeJsonStringItem (s : List Char) : List Char :=
  Char.ofNat 34 :: (escapeList s ++ [Char.ofNat 34])

/-- Remaining items of a JSON array after the first, commas included. -/
def encodeItemsTail : List (List Char) → List Char
  | [] => []
  | x :: xs => ',' :: encodeJsonStringItem x ++ encodeItemsTail xs

/-- serde_json's compact rendering of a `Vec<String>`. -/
def encodeJsonStringList : List (List Char) → List Char
  | [] => ['[', ']']
  | x :: xs => '[' :: encodeJsonStringItem x ++ encodeItemsTail xs ++ [']']

/-- Parse the tail of a JSON string array: either `]` ending the input, or a
comma followed by a string and more tail.  `fuel` bounds the recursion. -/
def decodeItemsTail : Nat → List Char → Option (List (List Char))
  | 0, _ => none
  | _ + 1, [] => none
  | fuel + 1, c :: rest =>
    if c = ']' then (if rest = [] then some [] else none)
    else if c = ',' then
      match rest with
      | [] => none
      | c2 :: rest2 =>
        if c2 = Char.ofNat 34 then
          match unescapeChars rest2 with
          | some (s, r) => (decodeItemsTail fuel r).map (fun xs => s :: xs)
          | none => none
        else none
    else none

/-- Parser for a complete JSON string array (the subset of `serde_json::from_str`
behaviour exercised by the encoder's output). -/
def decodeJsonStringList (l : List Char) : Option (List (List Char)) :=
  match l with
  | [] => none
  | c :: rest =>
    if c = '[' then
      match rest with
      | [] => none
      | c2 :: rest2 =>
        if c2 = ']' then (if rest2 = [] then some [] else none)
        else if c2 = Char.ofNat 34 then
          match unescapeChars rest2 with
          | some (s, r) => (decodeItemsTail (r.length + 1) r).map (fun xs => s :: xs)
          | none => none
        else none
    else none

theorem length_le_encodeItemsTail (xs : List (List Char)) :
    xs.length ≤ (encodeItemsTail xs).length := by
  induction xs with
  | nil => simp [encodeItemsTail]
  | cons x xs ih =>
    simp only [encodeItemsTail, List.length_cons, List.length_append]
    omega

theorem decodeItemsTail_encode (xs : List (List Char)) (fuel : Nat)
    (h : xs.length < fuel) :
    decodeItemsTail fuel (encodeItemsTail xs ++ [']']) = some xs := by
  induction xs generalizing fuel with
  | nil =>
    match fuel, h with
    | fuel + 1, _ => simp [encodeItemsTail, decodeItemsTail]
  | cons x xs ih =>
    match fuel, h with
    | fuel + 1, h =>
      have harr : encodeItemsTail (x :: xs) ++ [']'] =
          ',' :: Char.ofNat 34 ::
            (escapeList x ++ Char.ofNat 34 :: (encodeItemsTail xs ++ [']'])) := by
        simp [encodeItemsTail, encodeJsonStringItem]
      have hxs : xs.length < fuel := by
        simp only [List.length_cons] at h
        omega
      rw [harr]
      simp [decodeItemsTail, unescapeChars_escapeList x (encodeItemsTail xs ++ [']']),
        ih fuel hxs]

theorem decodeJsonStringList_encode (xs : List (List Char)) :
    decodeJsonStringList (encodeJsonStringList xs) = some xs := by
  cases xs with
  | nil => decide
  | cons x xs =>
    have harr : encodeJsonStringList (x :: xs) =
        '[' :: Char.ofNat 34 ::
          (escapeList x ++ Char.ofNat 34 :: (encodeItemsTail xs ++ [']'])) := by
      simp [encodeJsonStringList, encodeJsonStringItem]
    rw [harr]
    have hbound := length_le_encodeItemsTail xs
    simp [decodeJsonStringList, unescapeChars_escapeList x (encodeItemsTail xs ++ [']'])]
    exact decodeItemsTail_encode xs _ (by omega)

/-- Model of `serde_json::to_string(&Vec<String>)`. -/
def encodeModels (l : List String) : String :=
  String.mk (encodeJsonStringList (l.map String.toList))

/-- Model of `serde_json::from_str::<Vec<String>>`. -/
def decodeModels (s : String) : Option (List String) :=
  (decodeJsonStringList s.toList).map (List.map String.mk)

theorem decodeModels_encodeModels (l : List String) :
    decodeModels (encodeModels l) = some l := by
  have h1 : (encodeModels l).toList = encodeJsonStringList (l.map String.toList) := rfl
  rw [decodeModels, h1, decodeJsonStringList_encode]
  simp only [Option.map_some', Option.some.injEq]
  rw [List.map_map]
  have : (String.mk ∘ String.toList) = id := by
    funext s
    rfl
  rw [this, List.map_id]

/-! ### Proxy configuration (src/db/models.rs, src/db/config.rs) -/

/-- Rust struct `ProxyConfig` (src/db/models.rs).  `port` is a `u16`. -/
structure ProxyConfig where
  id : Int
  enabled : Bool
  host : String
  port : Nat
  scheduling_mode : String
  session_stickiness : Bool
  allowed_models : List String
  api_key : Option String
  created_at : Int
  updated_at : Int
deriving Repr, DecidableEq

/-- `impl Default for ProxyConfig`. -/
def ProxyConfig.default : ProxyConfig :=
  { id := 1
    enabled := false
    host := "127.0.0.1"
    port := 8094
    scheduling_mode := "cache-first"
    session_stickiness := true
    allowed_models := []
    api_key := none
    created_at := 0
    updated_at := 0 }

/-- One row of the `proxy_config` table as stored in SQLite: booleans are
integers, `allowed_models` is the JSON text. -/
structure ProxyRow where
  id : Int
  enabled : Int
  host : String
  port : Int
  scheduling_mode : String
  session_stickiness : Int
  allowed_models : String
  api_key : Option String
  created_at : Int
  updated_at : Int
deriving Repr, DecidableEq

/-- Rust `bool as i32`. -/
def boolToInt (b : Bool) : Int := if b then 1 else 0

/-- Rust `i32 as u16` (truncation to the low 16 bits). -/
def u16OfInt (n : Int) : Nat := (n % 65536).toNat

/-- The row written by `save_proxy_config` when it inserts (id literal 1). -/
def rowOfConfig (config : ProxyConfig) (now : Int) : ProxyRow :=
  { id := 1
    enabled := boolToInt config.enabled
    host := config.host
    port := (config.port : Int)
    scheduling_mode := config.scheduling_mode
    session_stickiness := boolToInt config.session_stickiness
    allowed_models := encodeModels config.allowed_models
    api_key := config.api_key
    created_at := now
    updated_at := now }

/-- Model of `save_proxy_config`: `INSERT ... VALUES (1, ...) ON CONFLICT(id)
DO UPDATE SET` every column except `id` and `created_at`. -/
def save_proxy_config (s : List ProxyRow) (config : ProxyConfig) (now : Int) :
    List ProxyRow :=
  if s.any (fun r => r.id = 1) then
    s.map (fun r =>
      if r.id = 1 then
        { r with
          enabled := boolToInt config.enabled
          host := config.host
          port := (config.port : Int)
          scheduling_mode := config.scheduling_mode
          session_stickiness := boolToInt config.session_stickiness
          allowed_models := encodeModels config.allowed_models
          api_key := config.api_key
          updated_at := now }
      else r)
  else s ++ [rowOfConfig config now]

/-- How `get_proxy_config` converts a row back to a `ProxyConfig`. -/
def configOfRow (r : ProxyRow) : ProxyConfig :=
  { id := r.id
    enabled := r.enabled != 0
    host := r.host
    port := u16OfInt r.port
    scheduling_mode := r.scheduling_mode
    session_stickiness := r.session_stickiness != 0
    allowed_models := (decodeModels r.allowed_models).getD []
    api_key := r.api_key
    created_at := r.created_at
    updated_at := r.updated_at }

/-- Model of `get_proxy_config`: read the row with id 1; if absent, create the
default configuration and return it. -/
def get_proxy_config (s : List ProxyRow) (now : Int) : ProxyConfig × List ProxyRow :=
  match s.find? (fun r => r.id = 1) with
  | some r => (configOfRow r, s)
  | none => (ProxyConfig.default, save_proxy_config s ProxyConfig.default now)

/-- The proxy-config store is a singleton: at most one row, and its id is 1. -/
def ProxySingleton (s : List ProxyRow) : Prop :=
  s.length ≤ 1 ∧ ∀ r ∈ s, r.id = 1

theorem find?_append_of_none {α : Type} (p : α → Bool) (l1 l2 : List α)
    (h : ∀ x ∈ l1, p x = false) :
    (l1 ++ l2).find? p = l2.find? p := by
  induction l1 with
  | nil => rfl
  | cons a l1 ih =>
    have ha := h a (List.mem_cons_self a l1)
    simp only [List.cons_append, List.find?_cons, ha]
    exact ih (fun x hx => h x (List.mem_cons_of_mem a hx))

theorem find?_map_of_pred {α : Type} (p : α → Bool) (f : α → α) (l : List α)
    (h : ∀ x, p (f x) = p x) :
    (l.map f).find? p = (l.find? p).map f := by
  induction l with
  | nil => rfl
  | cons a l ih =>
    by_cases hpa : p a = true
    · simp [List.find?_cons, h a, hpa]
    · have hpa' : p a = false := by
        cases hp : p a
        · rfl
        · exact absurd hp hpa
      simp [List.find?_cons, h a, hpa', ih]

theorem find?_save_proxy_config (s : List ProxyRow) (config : ProxyConfig)
    (now : Int) :
    ∃ r : ProxyRow,
      (save_proxy_config s config now).find? (fun r => r.id = 1) = some r ∧
      r.id = 1 ∧
      r.enabled = boolToInt config.enabled ∧
      r.host = config.host ∧
      r.port = (config.port : Int) ∧
      r.scheduling_mode = config.scheduling_mode ∧
      r.session_stickiness = boolToInt config.session_stickiness ∧
      r.allowed_models = encodeModels config.allowed_models ∧
      r.api_key = config.api_key := by
  by_cases hany : s.any (fun r => r.id = 1) = true
  · rw [save_proxy_config, if_pos hany]
    obtain ⟨r0, hr0mem, hr0⟩ := List.any_eq_true.mp hany
    have hfind : s.find? (fun r => decide (r.id = 1)) ≠ none := by
      intro hnone
      have := List.find?_eq_none.mp hnone r0 hr0mem
      exact this hr0
    obtain ⟨r1, hr1⟩ : ∃ r1, s.find? (fun r => decide (r.id = 1)) = some r1 := by
      cases hf : s.find? (fun r => decide (r.id = 1)) with
      | none => exact absurd hf hfind
      | some r1 => exact ⟨r1, rfl⟩
    have hr1id : r1.id = 1 := by
      have := List.find?_some hr1
      simpa using this
    have hpres : ∀ x : ProxyRow,
        (fun r => decide (r.id = 1))
            ((fun r =>
              if r.id = 1 then
                { r with
                  enabled := boolToInt config.enabled
                  host := config.host
                  port := (config.port : Int)
                  scheduling_mode := config.scheduling_mode
                  session_stickiness := boolToInt config.session_stickiness
                  allowed_models := encodeModels config.allowed_models
                  api_key := config.api_key
                  updated_at := now }
              else r) x) =
          (fun r => decide (r.id = 1)) x := by
      intro x
      by_cases hx : x.id = 1 <;> simp [hx]
    rw [find?_map_of_pred _ _ s hpres, hr1]
    exact ⟨_, rfl, by simp [hr1id], by simp [hr1id], by simp [hr1id], by simp [hr1id],
      by simp [hr1id], by simp [hr1id], by simp [hr1id], by simp [hr1id]⟩
  · rw [save_proxy_config, if_neg hany]
    have hany' : s.any (fun r => r.id = 1) = false := by
      cases ha : s.any (fun r => r.id = 1)
      · rfl
      · exact absurd ha hany
    have hall : ∀ x ∈ s, (fun r : ProxyRow => decide (r.id = 1)) x = false := by
      intro x hx
      have hne := List.any_eq_false.mp hany' x hx
      simpa using hne
    rw [find?_append_of_none _ s _ hall]
    refine ⟨rowOfConfig config now, ?_, rfl, rfl, rfl, rfl, rfl, rfl, rfl, rfl⟩
    simp [List.find?_cons, rowOfConfig]

theorem save_proxy_config_preserves (s : List ProxyRow) (config : ProxyConfig)
    (now : Int) (h : ProxySingleton s) :
    ProxySingleton (save_proxy_config s config now) := by
  rcases h with ⟨hlen, hids⟩
  by_cases hany : s.any (fun r => r.id = 1) = true
  · rw [save_proxy_config, if_pos hany]
    constructor
    · simpa using hlen
    · intro r hr
      obtain ⟨x, hx, hfx⟩ := List.mem_map.mp hr
      by_cases hxid : x.id = 1
      · rw [← hfx]
        simp [hxid]
      · rw [← hfx]
        simp only [if_neg hxid]
        exact hids x hx
  · have hs : s = [] := by
      cases s with
      | nil => rfl
      | cons a s' =>
        exfalso
        apply hany
        refine List.any_eq_true.mpr ⟨a, List.mem_cons_self a s', ?_⟩
        simp [hids a (List.mem_cons_self a s')]
    subst hs
    rw [save_proxy_config]
    refine ⟨by simp [rowOfConfig], ?_⟩
    intro r hr
    simp only [List.any_nil] at hr
    rw [if_neg (by simp), List.nil_append, List.mem_singleton] at hr
    rw [hr]
    rfl

/-- C5.  The proxy-config store is a singleton with id 1: the invariant holds
for the empty store, is preserved by `save_proxy_config` (which writes the row
with id 1 regardless of the id field of its argument) and by
`get_proxy_config`, and `get_proxy_config` on an empty store creates exactly
the single default row. -/
theorem proxy_config_singleton_invariant (s : List ProxyRow) (config : ProxyConfig)
    (now now2 : Int) (h : ProxySingleton s) :
    ProxySingleton [] ∧
    ProxySingleton (save_proxy_config s config now) ∧
    (∀ r ∈ save_proxy_config s config now, r.id = 1) ∧
    ProxySingleton (get_proxy_config s now2).2 ∧
    (s = [] →
      (get_proxy_config s now2).1 = ProxyConfig.default ∧
      (get_proxy_config s now2).2 = [rowOfConfig ProxyConfig.default now2]) := by
  have hsave := save_proxy_config_preserves s config now h
  refine ⟨⟨by simp, by simp⟩, hsave, hsave.2, ?_, ?_⟩
  · cases hf : s.find? (fun r => r.id = 1) with
    | some r =>
      rw [get_proxy_config, hf]
      exact h
    | none =>
      rw [get_proxy_config, hf]
      exact save_proxy_config_preserves s _ now2 h
  · intro hs
    subst hs
    exact ⟨rfl, rfl⟩

/-- A sample configuration with a non-1 id, used by witnesses. -/
def sampleProxyConfig : ProxyConfig :=
  { id := 9
    enabled := true
    host := "0.0.0.0"
    port := 9000
    scheduling_mode := "balanced"
    session_stickiness := false
    allowed_models := ["gemini-pro", "gemini-flash"]
    api_key := some "k1"
    created_at := 7
    updated_at := 8 }

/-- Witness for C5 at the empty store and a config whose id is 9. -/
theorem proxy_config_singleton_invariant_witness :
    ProxySingleton [] ∧
    ProxySingleton (save_proxy_config [] sampleProxyConfig 3) ∧
    (∀ r ∈ save_proxy_config [] sampleProxyConfig 3, r.id = 1) ∧
    ProxySingleton (get_proxy_config [] 4).2 ∧
    (([] : List ProxyRow) = [] →
      (get_proxy_config [] 4).1 = ProxyConfig.default ∧
      (get_proxy_config [] 4).2 = [rowOfConfig ProxyConfig.default 4]) :=
  proxy_config_singleton_invariant [] sampleProxyConfig 3 4 ⟨by simp, by simp⟩

/-- The scheduling modes the specification allows. -/
def validSchedulingMode (m : String) : Prop :=
  m = "cache-first" ∨ m = "balanced" ∨ m = "performance"

/-- A configuration carrying a scheduling mode outside the documented set. -/
def bogusProxyConfig : ProxyConfig :=
  { ProxyConfig.default with scheduling_mode := "round-robin" }

/-- C4 counterexample: `save_proxy_config` accepts and persists the scheduling
mode "round-robin", and `get_proxy_config` returns it. -/
theorem proxy_scheduling_mode_not_validated :
    (get_proxy_config (save_proxy_config [] bogusProxyConfig 0) 0).1.scheduling_mode =
      "round-robin" ∧
    ¬ validSchedulingMode
      (get_proxy_config (save_proxy_config [] bogusProxyConfig 0) 0).1.scheduling_mode := by
  constructor
  · rfl
  · rw [show (get_proxy_config (save_proxy_config [] bogusProxyConfig 0) 0).1.scheduling_mode =
        "round-robin" from rfl]
    simp [validSchedulingMode]

/-- C4 (amended).  The configuration operations perform no validation of
`scheduling_mode`: the stored and returned mode is exactly the string supplied,
whatever it is; only the default configuration is guaranteed to carry one of
the three documented modes ("cache-first"). -/
theorem proxy_scheduling_mode_verbatim (s : List ProxyRow) (config : ProxyConfig)
    (now now2 : Int) :
    (get_proxy_config (save_proxy_config s config now) now2).1.scheduling_mode =
      config.scheduling_mode ∧
    validSchedulingMode ProxyConfig.default.scheduling_mode := by
  obtain ⟨r, hfind, hid, hen, hhost, hport, hmode, hss, ham, hkey⟩ :=
    find?_save_proxy_config s config now
  constructor
  · rw [get_proxy_config, hfind]
    exact hmode
  · left
    rfl

/-- C7.  Round-trip: after `save_proxy_config`, `get_proxy_config` returns a
configuration agreeing with the saved one on `enabled`, `host`, `port`,
`scheduling_mode`, `session_stickiness`, `allowed_models` (JSON round-trip,
order preserved) and `api_key`.  The port hypothesis reflects `u16`. -/
theorem proxy_config_roundtrip (s : List ProxyRow) (config : ProxyConfig)
    (now now2 : Int) (hport : config.port < 65536) :
    (get_proxy_config (save_proxy_config s config now) now2).1.enabled = config.enabled ∧
    (get_proxy_config (save_proxy_config s config now) now2).1.host = config.host ∧
    (get_proxy_config (save_proxy_config s config now) now2).1.port = config.port ∧
    (get_proxy_config (save_proxy_config s config now) now2).1.scheduling_mode =
      config.scheduling_mode ∧
    (get_proxy_config (save_proxy_config s config now) now2).1.session_stickiness =
      config.session_stickiness ∧
    (get_proxy_config (save_proxy_config s config now) now2).1.allowed_models =
      config.allowed_models ∧
    (get_proxy_config (save_proxy_config s config now) now2).1.api_key = config.api_key := by
  obtain ⟨r, hfind, hid, hen, hhost, hportr, hmode, hss, ham, hkey⟩ :=
    find?_save_proxy_config s config now
  rw [get_proxy_config, hfind]
  refine ⟨?_, ?_, ?_, ?_, ?_, ?_, ?_⟩
  · show (r.enabled != 0) = config.enabled
    rw [hen]
    cases config.enabled <;> rfl
  · exact hhost
  · show u16OfInt r.port = config.port
    rw [hportr, u16OfInt]
    omega
  · exact hmode
  · show (r.session_stickiness != 0) = config.session_stickiness
    rw [hss]
    cases config.session_stickiness <;> rfl
  · show (decodeModels r.allowed_models).getD [] = config.allowed_models
    rw [ham, decodeModels_encodeModels]
    rfl
  · exact hkey

/-- Witness for C7 at a concrete configuration with two allowed models. -/
theorem proxy_config_roundtrip_witness :
    sampleProxyConfig.port < 65536 ∧
    ((get_proxy_config (save_proxy_config [] sampleProxyConfig 3) 4).1.enabled =
        sampleProxyConfig.enabled ∧
      (get_proxy_config (save_proxy_config [] sampleProxyConfig 3) 4).1.host =
        sampleProxyConfig.host ∧
      (get_proxy_config (save_proxy_config [] sampleProxyConfig 3) 4).1.port =
        sampleProxyConfig.port ∧
      (get_proxy_config (save_proxy_config [] sampleProxyConfig 3) 4).1.scheduling_mode =
        sampleProxyConfig.scheduling_mode ∧
      (get_proxy_config (save_proxy_config [] sampleProxyConfig 3) 4).1.session_stickiness =
        sampleProxyConfig.session_stickiness ∧
      (get_proxy_config (save_proxy_config [] sampleProxyConfig 3) 4).1.allowed_models =
        sampleProxyConfig.allowed_models ∧
      (get_proxy_config (save_proxy_config [] sampleProxyConfig 3) 4).1.api_key =
        sampleProxyConfig.api_key) :=
  ⟨by decide, proxy_config_roundtrip [] sampleProxyConfig 3 4 (by decide)⟩

/-! ### Monitor logs (src/db/models.rs, src/db/monitor.rs)

The floating-point average in `get_stats` is not modelled (the counts and token
sums, which are exact integers, are); `get_stats`, like the other reads, does
not modify the table, which is all claim C8 needs of it. -/

/-- Rust struct `MonitorLog` (src/db/models.rs). -/
structure MonitorLog where
  id : Int
  timestamp : Int
  method : String
  path : String
  status_code : Nat
  latency_ms : Nat
  account_email : Option String
  model : Option String
  input_tokens : Option Int
  output_tokens : Option Int
  error_message : Option String
deriving Repr, DecidableEq

/-- The `proxy_monitor_logs` table: rows in rowid order plus the AUTOINCREMENT
counter. -/
structure LogTable where
  rows : List MonitorLog
  nextId : Int
deriving Repr, DecidableEq

/-- Model of `insert_log`: appends a fresh row with the next rowid; the id of
the argument is ignored by the INSERT column list. -/
def insert_log (t : LogTable) (log : MonitorLog) : LogTable × Int :=
  ({ rows := t.rows ++ [{ log with id := t.nextId }], nextId := t.nextId + 1 }, t.nextId)

/-- Model of `get_logs`: `ORDER BY timestamp DESC LIMIT ? OFFSET ?` (stable
descending sort, realised by sorting on the negated timestamp). -/
def get_logs (t : LogTable) (limit offsetArg : Nat) : List MonitorLog :=
  ((sortByKey (fun r => -r.timestamp) t.rows).drop offsetArg).take limit

/-- Model of `get_log_count`. -/
def get_log_count (t : LogTable) : Nat :=
  t.rows.length

/-- Model of `clear_logs`: deletes every row, returning the prior count. -/
def clear_logs (t : LogTable) : LogTable × Nat :=
  ({ rows := [], nextId := t.nextId }, t.rows.length)

/-- Model of `clear_logs_before`: `DELETE ... WHERE timestamp < ?`. -/
def clear_logs_before (t : LogTable) (before : Int) : LogTable × Nat :=
  ({ rows := t.rows.filter (fun r => !(r.timestamp < before)), nextId := t.nextId },
    (t.rows.filter (fun r => r.timestamp < before)).length)

/-- The exact (non-floating-point) part of `get_stats`. -/
structure LogStats where
  total_requests : Nat
  success_count : Nat
  error_count : Nat
  total_input_tokens : Int
  total_output_tokens : Int
deriving Repr, DecidableEq

/-- Model of `get_stats` counts and sums (`COUNT`, `SUM` with NULLs skipped). -/
def get_stats (t : LogTable) : LogStats :=
  { total_requests := t.rows.length
    success_count := (t.rows.filter (fun r => r.status_code < 400)).length
    error_count := (t.rows.filter (fun r => 400 ≤ r.status_code)).length
    total_input_tokens := (t.rows.map (fun r => (r.input_tokens).getD 0)).foldl (· + ·) 0
    total_output_tokens := (t.rows.map (fun r => (r.output_tokens).getD 0)).foldl (· + ·) 0 }

/-- The operations the monitor-log store exposes. -/
inductive MonitorOp
  | insert (log : MonitorLog)
  | getLogs (limit offsetArg : Nat)
  | getCount
  | getStats
  | clearAll
  | clearBefore (before : Int)
deriving Repr, DecidableEq

/-- The table state after running one monitor-log operation (reads leave the
table untouched; their results are given by the functions above). -/
def applyMonitorOp (op : MonitorOp) (t : LogTable) : LogTable :=
  match op with
  | .insert log => (insert_log t log).1
  | .getLogs _ _ => t
  | .getCount => t
  | .getStats => t
  | .clearAll => (clear_logs t).1
  | .clearBefore before => (clear_logs_before t before).1

/-- Well-formedness of the log table: rowids are distinct and below the
AUTOINCREMENT counter. -/
def WfLogTable (t : LogTable) : Prop :=
  (t.rows.map (fun r => r.id)).Nodup ∧ ∀ r ∈ t.rows, r.id < t.nextId

/-- Well-formedness is preserved by every operation. -/
theorem wfLogTable_applyMonitorOp (op : MonitorOp) (t : LogTable)
    (h : WfLogTable t) : WfLogTable (applyMonitorOp op t) := by
  rcases h with ⟨hnodup, hlt⟩
  cases op with
  | insert log =>
    constructor
    · simp only [applyMonitorOp, insert_log, List.map_append, List.map_cons, List.map_nil]
      rw [List.nodup_append]
      refine ⟨hnodup, List.nodup_singleton _, ?_⟩
      intro a ha hb
      simp only [List.mem_singleton] at hb
      subst hb
      obtain ⟨r, hr, hra⟩ := List.mem_map.mp ha
      have hrlt := hlt r hr
      omega
    · intro r hr
      simp only [applyMonitorOp, insert_log, List.mem_append, List.mem_singleton] at hr
      rcases hr with hr | hr
      · have := hlt r hr
        simp only [applyMonitorOp, insert_log]
        omega
      · subst hr
        simp only [applyMonitorOp, insert_log]
        omega
  | getLogs limit offsetArg => exact ⟨hnodup, hlt⟩
  | getCount => exact ⟨hnodup, hlt⟩
  | getStats => exact ⟨hnodup, hlt⟩
  | clearAll => exact ⟨by simp [applyMonitorOp, clear_logs], by simp [applyMonitorOp, clear_logs]⟩
  | clearBefore before =>
    constructor
    · simp only [applyMonitorOp, clear_logs_before]
      exact List.Nodup.sublist
        ((List.filter_sublist t.rows).map (fun r : MonitorLog => r.id)) hnodup
    · intro r hr
      simp only [applyMonitorOp, clear_logs_before] at hr ⊢
      exact hlt r (List.mem_of_mem_filter hr)

/-- C8.  Monitor-log records are immutable: after any operation, every row of
the new table is either an unchanged row of the old table or the single row
appended by `insert_log`; and any surviving row with the id of an old row is
that old row, all fields unchanged. -/
theorem monitor_log_records_immutable (t : LogTable) (op : MonitorOp)
    (h : WfLogTable t) :
    (∀ r2 ∈ (applyMonitorOp op t).rows,
      r2 ∈ t.rows ∨ ∃ log, op = .insert log ∧ r2 = { log with id := t.nextId }) ∧
    (∀ r ∈ t.rows, ∀ r2 ∈ (applyMonitorOp op t).rows, r2.id = r.id → r2 = r) := by
  rcases h with ⟨hnodup, hlt⟩
  constructor
  · intro r2 hr2
    cases op with
    | insert log =>
      simp only [applyMonitorOp, insert_log, List.mem_append, List.mem_singleton] at hr2
      rcases hr2 with hr2 | hr2
      · exact Or.inl hr2
      · exact Or.inr ⟨log, rfl, hr2⟩
    | getLogs limit offsetArg => exact Or.inl hr2
    | getCount => exact Or.inl hr2
    | getStats => exact Or.inl hr2
    | clearAll => cases hr2
    | clearBefore before =>
      exact Or.inl (List.mem_of_mem_filter hr2)
  · intro r hr r2 hr2 hid
    have hmem : r2 ∈ t.rows ∨ ∃ log, op = .insert log ∧ r2 = { log with id := t.nextId } := by
      cases op with
      | insert log =>
        simp only [applyMonitorOp, insert_log, List.mem_append, List.mem_singleton] at hr2
        rcases hr2 with hr2 | hr2
        · exact Or.inl hr2
        · exact Or.inr ⟨log, rfl, hr2⟩
      | getLogs limit offsetArg => exact Or.inl hr2
      | getCount => exact Or.inl hr2
      | getStats => exact Or.inl hr2
      | clearAll => cases hr2
      | clearBefore before => exact Or.inl (List.mem_of_mem_filter hr2)
    rcases hmem with hmem | ⟨log, hop, hnew⟩
    · exact List.inj_on_of_nodup_map hnodup hmem hr hid
    · exfalso
      have hrlt := hlt r hr
      rw [hnew] at hid
      simp only at hid
      omega

/-- A sample log row used by the C8 witness. -/
def sampleLog : MonitorLog :=
  { id := 1, timestamp := 100, method := "POST", path := "/v1/generate",
    status_code := 200, latency_ms := 250, account_email := some "a@x",
    model := some "gemini-pro", input_tokens := some 12, output_tokens := some 34,
    error_message := none }

/-- Witness for C8: clearing logs before timestamp 50 on a one-row table. -/
theorem monitor_log_records_immutable_witness :
    (∀ r2 ∈ (applyMonitorOp (.clearBefore 50) { rows := [sampleLog], nextId := 2 }).rows,
      r2 ∈ [sampleLog] ∨
        ∃ log, MonitorOp.clearBefore 50 = .insert log ∧ r2 = { log with id := 2 }) ∧
    (∀ r ∈ [sampleLog],
      ∀ r2 ∈ (applyMonitorOp (.clearBefore 50) { rows := [sampleLog], nextId := 2 }).rows,
        r2.id = r.id → r2 = r) :=
  monitor_log_records_immutable { rows := [sampleLog], nextId := 2 } (.clearBefore 50)
    ⟨by simp, by simp [sampleLog]⟩

/-! ### Google OAuth token refresh (src/auth/google.rs) -/

/-- Rust struct `TokenResponse` (src/auth/google.rs). -/
structure TokenResponse where
  access_token : String
  token_type : String
  expires_in : Nat
  refresh_token : Option String
  scope : Option String
deriving Repr, DecidableEq

/-- Rust enum `AuthError` (src/auth/google.rs). -/
inductive AuthError
  | RequestFailed (msg : String)
  | TokenExchangeFailed (msg : String)
  | TokenRefreshFailed (msg : String)
  | UserInfoFailed (msg : String)
  | ParseFailed (msg : String)
  | InvalidState
  | MissingCode
deriving Repr, DecidableEq

/-- An HTTP response from the token endpoint: status, body text, and the
result of deserialising the body as a `TokenResponse` (what `response.json()`
would yield; `none` models a serde failure, whose message is opaque and is
represented here by the body text). -/
structure HttpResponse where
  status : Nat
  body : String
  parsed : Option TokenResponse
deriving Repr, DecidableEq

/-- The outcome of `client.post(...).send().await`. -/
inductive UpstreamOutcome
  | sendError (msg : String)
  | response (r : HttpResponse)
deriving Repr, DecidableEq

/-- `reqwest::StatusCode::is_success` (2xx). -/
def isSuccessStatus (status : Nat) : Bool :=
  200 ≤ status && status < 300

/-- Model of `GoogleOAuth::refresh_token` over the upstream outcome: a send
failure maps to `RequestFailed`, a non-success HTTP status maps to
`TokenRefreshFailed` carrying the body text, and a success response whose body
does not deserialise maps to `ParseFailed`. -/
def refresh_token (outcome : UpstreamOutcome) : Except AuthError TokenResponse :=
  match outcome with
  | .sendError msg => .error (.RequestFailed msg)
  | .response r =>
    if isSuccessStatus r.status then
      match r.parsed with
      | some tok => .ok tok
      | none => .error (.ParseFailed r.body)
    else .error (.TokenRefreshFailed r.body)

/-- C3 counterexample: a network send failure yields no successful token
response, yet the error is `RequestFailed`, not `TokenRefreshFailed`. -/
theorem refresh_token_error_kind_counterexample :
    (∀ tok : TokenResponse,
      refresh_token (.sendError "connection refused") ≠ .ok tok) ∧
    (∀ msg : String,
      refresh_token (.sendError "connection refused") ≠
        .error (.TokenRefreshFailed msg)) ∧
    refresh_token (.sendError "connection refused") =
      .error (.RequestFailed "connection refused") := by
  refine ⟨?_, ?_, rfl⟩
  · intro tok h
    simp [refresh_token] at h
  · intro msg h
    simp [refresh_token] at h

/-- C3 (amended).  A non-success HTTP status from the token endpoint maps to
`TokenRefreshFailed` carrying the upstream body as an opaque string; a send
failure maps to `RequestFailed`; a success response whose body does not parse
maps to `ParseFailed`. -/
theorem refresh_token_error_mapping (r r2 : HttpResponse) (msg : String)
    (hstatus : isSuccessStatus r.status = false)
    (hstatus2 : isSuccessStatus r2.status = true)
    (hparse2 : r2.parsed = none) :
    refresh_token (.response r) = .error (.TokenRefreshFailed r.body) ∧
    refresh_token (.sendError msg) = .error (.RequestFailed msg) ∧
    refresh_token (.response r2) = .error (.ParseFailed r2.body) := by
  refine ⟨?_, rfl, ?_⟩
  · simp [refresh_token, hstatus]
  · simp [refresh_token, hstatus2, hparse2]

/-- Witness for C3 (amended) at a 400 response, a send failure, and an
unparseable 200 response. -/
theorem refresh_token_error_mapping_witness :
    isSuccessStatus 400 = false ∧
    isSuccessStatus 200 = true ∧
    (refresh_token (.response { status := 400, body := "invalid_grant", parsed := none }) =
        .error (.TokenRefreshFailed "invalid_grant") ∧
      refresh_token (.sendError "timeout") = .error (.RequestFailed "timeout") ∧
      refresh_token (.response { status := 200, body := "not json", parsed := none }) =
        .error (.ParseFailed "not json")) :=
  ⟨rfl, rfl,
    refresh_token_error_mapping
      { status := 400, body := "invalid_grant", parsed := none }
      { status := 200, body := "not json", parsed := none }
      "timeout" rfl rfl rfl⟩

/-! ### The Scheduler (spec sections 4.3, 4.5, 7)

src/lib.rs declares `pub mod proxy;` but the proxy/scheduler sources are not
under src/, so the Scheduler is modelled from the specification. -/

/-- Rust struct `QuotaInfo` (src/db/models.rs). -/
structure QuotaInfo where
  account_id : Int
  input_quota : Int
  input_used : Int
  output_quota : Int
  output_used : Int
  updated_at : Int
deriving Repr, DecidableEq

/-- Modelled from the spec: one pool entry the Scheduler sees (spec 4.1, 4.5)
— account, quota, the in-memory cool-down overlay and the Router's latency
EWMA used by performance mode.  The scheduler core is absent from src/. -/
structure PoolEntry where
  account : Account
  quota : QuotaInfo
  coolDown : Bool
  latencyEwma : Int
deriving Repr, DecidableEq

/-- Modelled from the spec: the SchedulingError taxonomy (spec section 7). -/
inductive SchedulingError
  | NoEligibleAccount
  | QuotaExhausted
  | TokenRefreshFailed
  | UpstreamUnavailable
  | UpstreamRejected
  | ConfigDisabled
deriving Repr, DecidableEq

/-- Modelled from the spec: the request context handed to `select` (spec 4.5):
an optional session key and the requested model name. -/
structure RequestContext where
  sessionKey : Option String
  modelName : String
deriving Repr, DecidableEq

/-- Modelled from the spec: quota admission (spec 4.3) — zero input and output
quota is the unlimited sentinel, otherwise `input_used + estimate ≤
input_quota`. -/
def canAdmit (q : QuotaInfo) (estimate : Int) : Bool :=
  (q.input_quota = 0 && q.output_quota = 0) || (q.input_used + estimate ≤ q.input_quota)

/-- Modelled from the spec: `allowed_models` filtering (empty list allows
all models). -/
def modelAllowed (cfg : ProxyConfig) (m : String) : Bool :=
  cfg.allowed_models.isEmpty || cfg.allowed_models.contains m

/-- Modelled from the spec: combined usage of an entry (balanced mode). -/
def usageOf (e : PoolEntry) : Int :=
  e.quota.input_used + e.quota.output_used

/-- Modelled from the spec: balanced-mode denominator `max(quota, 1)`. -/
def quotaDenom (e : PoolEntry) : Int :=
  max (e.quota.input_quota + e.quota.output_quota) 1

/-- Lexicographic comparison of two integer pairs. -/
def intPairLe (a1 b1 a2 b2 : Int) : Bool :=
  a1 < a2 || (a1 = a2 && b1 ≤ b2)

/-- Modelled from the spec: cache-first preference score — 0 for the account
most recently used for this session/model pair, 1 otherwise. -/
def recentScore (recentId : Option Int) (e : PoolEntry) : Int :=
  if recentId = some e.account.id then 0 else 1

/-- Modelled from the spec: mode-dependent candidate ranking (spec 4.5 step 3).
Balanced compares usage ratios by cross-multiplication (denominators are
positive); performance compares the latency EWMA; cache-first prefers the
session/model-recent account.  All modes tie-break by `sort_order`. -/
def rankB (cfg : ProxyConfig) (recentId : Option Int) (e1 e2 : PoolEntry) : Bool :=
  if cfg.scheduling_mode = "balanced" then
    intPairLe (usageOf e1 * quotaDenom e2) e1.account.sort_order
      (usageOf e2 * quotaDenom e1) e2.account.sort_order
  else if cfg.scheduling_mode = "performance" then
    intPairLe e1.latencyEwma e1.account.sort_order
      e2.latencyEwma e2.account.sort_order
  else
    intPairLe (recentScore recentId e1) e1.account.sort_order
      (recentScore recentId e2) e2.account.sort_order

/-- Modelled from the spec: `select` (spec 4.5).  Step 1 filters to active,
model-allowed, non-cool-down, quota-admissible entries; an empty or fully
inactive pool is `NoEligibleAccount` and an active pool with no admissible
candidate is `QuotaExhausted` (spec section 7); step 2 honours a surviving
session binding when stickiness is on; step 3 ranks the candidates by mode. -/
def select (cfg : ProxyConfig) (pool : List PoolEntry)
    (bindings : List (String × Int)) (recent : List ((String × String) × Int))
    (ctx : RequestContext) (estimate : Int) : Except SchedulingError PoolEntry :=
  let actives := pool.filter (fun e => e.account.is_active)
  if actives.isEmpty then .error .NoEligibleAccount
  else
    let candidates := actives.filter (fun e =>
      modelAllowed cfg ctx.modelName && !e.coolDown && canAdmit e.quota estimate)
    if candidates.isEmpty then .error .QuotaExhausted
    else
      let sticky :=
        if cfg.session_stickiness then
          match ctx.sessionKey with
          | some key =>
            match bindings.find? (fun b => b.1 = key) with
            | some b => candidates.find? (fun e => e.account.id = b.2)
            | none => none
          | none => none
        else none
      match sticky with
      | some e => .ok e
      | none =>
        let recentId :=
          match ctx.sessionKey with
          | some key =>
            match recent.find? (fun p => p.1.1 = key && p.1.2 = ctx.modelName) with
            | some p => some p.2
            | none => none
          | none => none
        match List.insertionSort (fun e1 e2 => rankB cfg recentId e1 e2 = true) candidates with
        | e :: _ => .ok e
        | [] => .error .NoEligibleAccount

/-- C2.  Modelled from the spec: for every pool that is empty or in which
every account is inactive, `select` returns `NoEligibleAccount`. -/
theorem select_no_eligible_account (cfg : ProxyConfig) (pool : List PoolEntry)
    (bindings : List (String × Int)) (recent : List ((String × String) × Int))
    (ctx : RequestContext) (estimate : Int)
    (h : pool = [] ∨ ∀ e ∈ pool, e.account.is_active = false) :
    select cfg pool bindings recent ctx estimate = .error .NoEligibleAccount := by
  have hfilter : pool.filter (fun e => e.account.is_active) = [] := by
    rcases h with h | h
    · rw [h]
      rfl
    · exact List.filter_eq_nil.mpr (fun e he => by simp [h e he])
  simp [select, hfilter]

/-- A pool entry whose account is inactive, used by the C2 witness. -/
def sampleInactiveEntry : PoolEntry :=
  { account := sampleInactive
    quota := { account_id := 1, input_quota := 0, input_used := 0,
               output_quota := 0, output_used := 0, updated_at := 0 }
    coolDown := false
    latencyEwma := 5 }

/-- Witness for C2 at the empty pool and at a one-entry all-inactive pool. -/
theorem select_no_eligible_account_witness :
    select ProxyConfig.default [] [] []
      { sessionKey := none, modelName := "gemini-pro" } 1000 =
      .error .NoEligibleAccount ∧
    select ProxyConfig.default [sampleInactiveEntry] [] []
      { sessionKey := none, modelName := "gemini-pro" } 1000 =
      .error .NoEligibleAccount :=
  ⟨select_no_eligible_account ProxyConfig.default [] [] []
      { sessionKey := none, modelName := "gemini-pro" } 1000 (Or.inl rfl),
    select_no_eligible_account ProxyConfig.default [sampleInactiveEntry] [] []
      { sessionKey := none, modelName := "gemini-pro" } 1000 (Or.inr (by decide))⟩

end BetterManager
